import Mathlib

/-!
Verification of the file-integrity-monitor engine (`src/fim_scanner.py`).

The Python source is shallowly embedded: dictionaries (`dict[str, ...]`)
become association lists with string keys, Python `set` values become
membership-faithful lists (Python set iteration order is unspecified, so
every property proved below is stated up to membership), `KeyError` from a
dictionary subscript becomes the `Except.error` branch of an `Except`
computation, and functions that can return `None` return `Option`.
Machine-level details that the engine never computes with (the file
modification timestamp, a float in Python) are carried as exact rationals.
-/

set_option autoImplicit false

namespace FIM

/-- One fingerprint record, the value stored per file by `scan_directory`
(`src/fim_scanner.py` lines 51-55): the dict
`{'hash': ..., 'size': ..., 'modified': ...}`.  `hash` is the hex digest
string, `size` the byte length (a Python int), `modified` the mtime
(a Python float, embedded as an exact rational). -/
structure FingerprintRecord where
  hash : String
  size : Int
  modified : ℚ
deriving DecidableEq

/-- A Python `dict[str, record]`, embedded as an association list.  A real
dict has no duplicate keys; lemmas that depend on key uniqueness take a
`(keys m).Nodup` hypothesis. -/
abbrev FingerprintMapping := List (String × FingerprintRecord)

/-- Key list of a mapping, what `set(d.keys())` observes. -/
def keys (m : FingerprintMapping) : List String :=
  m.map Prod.fst

/-- Dictionary lookup: the value at the first occurrence of the key. -/
def lookup (m : FingerprintMapping) (k : String) : Option FingerprintRecord :=
  match m with
  | [] => none
  | (k', v) :: rest => if k' = k then some v else lookup rest k

/-- The Python subscript `d[k]`: raises `KeyError` when the key is absent,
embedded as the error branch of `Except`. -/
def dictGet (m : FingerprintMapping) (k : String) : Except String FingerprintRecord :=
  match lookup m k with
  | some v => Except.ok v
  | none => Except.error "KeyError"

/-- The result dict `changes` of `compare_baselines`
(`src/fim_scanner.py` lines 80-84): lists of paths under the keys
`new`, `deleted`, `modified`. -/
structure Changes where
  new : List String
  deleted : List String
  modified : List String
deriving DecidableEq

/-- The loop of `compare_baselines` over
`current_files.intersection(baseline_files)`
(`src/fim_scanner.py` lines 93-96): for each common key, the subscripts
`current[file]` and `baseline[file]` are read and the key is appended to
`changes['modified']` when the `hash` or the `size` fields differ. -/
def modifiedLoop (current baseline : FingerprintMapping) :
    List String → Except String (List String)
  | [] => Except.ok []
  | f :: fs => do
    let c ← dictGet current f
    let b ← dictGet baseline f
    let rest ← modifiedLoop current baseline fs
    if c.hash ≠ b.hash ∨ c.size ≠ b.size then
      Except.ok (f :: rest)
    else
      Except.ok rest

/-- Embedding of `compare_baselines(current, baseline)` (`src/fim_scanner.py` lines
79-98).  `current_files - baseline_files`, `baseline_files - current_files`
and the intersection are computed on the key sets; the sets are embedded as
lists that are faithful up to membership. -/
def compare_baselines (current baseline : FingerprintMapping) :
    Except String Changes := do
  let current_files := keys current
  let baseline_files := keys baseline
  let newFiles := current_files.filter (fun k => k ∉ baseline_files)
  let deletedFiles := baseline_files.filter (fun k => k ∉ current_files)
  let modifiedFiles ← modifiedLoop current baseline
    (current_files.filter (fun k => k ∈ baseline_files))
  pure { new := newFiles, deleted := deletedFiles, modified := modifiedFiles }

theorem lookup_isSome_of_mem_keys {m : FingerprintMapping} {k : String}
    (h : k ∈ keys m) : ∃ v, lookup m k = some v := by
  induction m with
  | nil => simp [keys] at h
  | cons p rest ih =>
    by_cases hk : p.1 = k
    · exact ⟨p.2, by simp [lookup, hk]⟩
    · have : k ∈ keys rest := by
        simp [keys] at h ⊢
        rcases h with h | h
        · exact absurd h.symm hk
        · exact h
      rcases ih this with ⟨v, hv⟩
      exact ⟨v, by simp [lookup, hk, hv]⟩

theorem mem_keys_of_lookup_some {m : FingerprintMapping} {k : String}
    {v : FingerprintRecord} (h : lookup m k = some v) : k ∈ keys m := by
  induction m with
  | nil => simp [lookup] at h
  | cons p rest ih =>
    by_cases hk : p.1 = k
    · simp [keys, hk.symm]
    · simp only [lookup, hk, if_false] at h
      have hmem := ih h
      simp [keys] at hmem ⊢
      exact Or.inr hmem

theorem modifiedLoop_ok {current baseline : FingerprintMapping} :
    ∀ {fs : List String},
      (∀ f ∈ fs, f ∈ keys current ∧ f ∈ keys baseline) →
      ∃ l, modifiedLoop current baseline fs = Except.ok l := by
  intro fs
  induction fs with
  | nil => intro _; exact ⟨[], rfl⟩
  | cons f fs ih =>
    intro h
    have hf := h f (List.mem_cons_self f fs)
    rcases lookup_isSome_of_mem_keys hf.1 with ⟨c, hc⟩
    rcases lookup_isSome_of_mem_keys hf.2 with ⟨b, hb⟩
    rcases ih (fun g hg => h g (List.mem_cons_of_mem f hg)) with ⟨rest, hrest⟩
    by_cases hd : c.hash ≠ b.hash ∨ c.size ≠ b.size
    · exact ⟨f :: rest,
        by simp [modifiedLoop, dictGet, hc, hb, hrest, hd, bind, Except.bind]⟩
    · exact ⟨rest,
        by simp [modifiedLoop, dictGet, hc, hb, hrest, hd, bind, Except.bind]⟩

theorem mem_modifiedLoop {current baseline : FingerprintMapping} :
    ∀ {fs : List String} {l : List String},
      modifiedLoop current baseline fs = Except.ok l →
      ∀ k, k ∈ l ↔ k ∈ fs ∧ ∃ cr br, lookup current k = some cr ∧
        lookup baseline k = some br ∧ (cr.hash ≠ br.hash ∨ cr.size ≠ br.size) := by
  intro fs
  induction fs with
  | nil =>
    intro l hl k
    simp [modifiedLoop] at hl
    subst hl
    simp
  | cons f fs ih =>
    intro l hl k
    cases hc : lookup current f with
    | none => simp [modifiedLoop, dictGet, hc, bind, Except.bind] at hl
    | some c =>
      cases hb : lookup baseline f with
      | none => simp [modifiedLoop, dictGet, hc, hb, bind, Except.bind] at hl
      | some b =>
        cases hrest : modifiedLoop current baseline fs with
        | error e => simp [modifiedLoop, dictGet, hc, hb, hrest, bind, Except.bind] at hl
        | ok rest =>
          have hr := ih hrest
          by_cases hd : c.hash ≠ b.hash ∨ c.size ≠ b.size
          · have hl' : l = f :: rest := by
              simp [modifiedLoop, dictGet, hc, hb, hrest, hd, bind, Except.bind] at hl
              exact hl.symm
            subst hl'
            constructor
            · intro hk
              rcases List.mem_cons.mp hk with hk | hk
              · subst hk
                exact ⟨List.mem_cons_self k fs, c, b, hc, hb, hd⟩
              · rcases (hr k).mp hk with ⟨h1, h2⟩
                exact ⟨List.mem_cons_of_mem f h1, h2⟩
            · intro ⟨h1, h2⟩
              rcases List.mem_cons.mp h1 with hk | hk
              · subst hk; exact List.mem_cons_self k rest
              · exact List.mem_cons_of_mem f ((hr k).mpr ⟨hk, h2⟩)
          · have hl' : l = rest := by
              simp [modifiedLoop, dictGet, hc, hb, hrest, hd, bind, Except.bind] at hl
              exact hl.symm
            subst hl'
            constructor
            · intro hk
              rcases (hr k).mp hk with ⟨h1, h2⟩
              exact ⟨List.mem_cons_of_mem f h1, h2⟩
            · intro ⟨h1, h2⟩
              rcases List.mem_cons.mp h1 with hk | hk
              · subst hk
                rcases h2 with ⟨cr, br, hcr, hbr, hdiff⟩
                rw [hc] at hcr; rw [hb] at hbr
                cases hcr; cases hbr
                exact absurd hdiff hd
              · exact (hr k).mpr ⟨hk, h2⟩

theorem compare_baselines_eq {current baseline : FingerprintMapping}
    {l : List String}
    (hml : modifiedLoop current baseline
      ((keys current).filter (fun k => k ∈ keys baseline)) = Except.ok l) :
    compare_baselines current baseline =
      Except.ok ⟨(keys current).filter (fun k => k ∉ keys baseline),
        (keys baseline).filter (fun k => k ∉ keys current), l⟩ := by
  simp [compare_baselines, hml, bind, Except.bind, pure, Except.pure]

theorem compare_baselines_spec {current baseline : FingerprintMapping}
    {ch : Changes} (h : compare_baselines current baseline = Except.ok ch) :
    (∀ k, k ∈ ch.new ↔ k ∈ keys current ∧ k ∉ keys baseline) ∧
    (∀ k, k ∈ ch.deleted ↔ k ∈ keys baseline ∧ k ∉ keys current) ∧
    (∀ k, k ∈ ch.modified ↔ ∃ cr br, lookup current k = some cr ∧
      lookup baseline k = some br ∧ (cr.hash ≠ br.hash ∨ cr.size ≠ br.size)) := by
  cases hml : modifiedLoop current baseline
      ((keys current).filter (fun k => k ∈ keys baseline)) with
  | error e =>
    simp [compare_baselines, hml, bind, Except.bind] at h
  | ok l =>
    rw [compare_baselines_eq hml] at h
    have hch := Except.ok.inj h
    subst hch
    refine ⟨fun k => by simp, fun k => by simp, fun k => ?_⟩
    rw [mem_modifiedLoop hml k]
    constructor
    · rintro ⟨_, h2⟩; exact h2
    · rintro ⟨cr, br, hcr, hbr, hd⟩
      refine ⟨?_, cr, br, hcr, hbr, hd⟩
      simp [List.mem_filter]
      exact ⟨mem_keys_of_lookup_some hcr, mem_keys_of_lookup_some hbr⟩

/-- C9: the Differ is pure and total.  `compare_baselines` is a pure
function; for every pair of mappings it returns `Except.ok` — the
`KeyError` branch of the dictionary subscripts on the key intersection is
unreachable — so it always terminates with a classification and never
fails. -/
theorem compare_baselines_total (current baseline : FingerprintMapping) :
    ∃ ch, compare_baselines current baseline = Except.ok ch := by
  have hmem : ∀ f ∈ (keys current).filter (fun k => k ∈ keys baseline),
      f ∈ keys current ∧ f ∈ keys baseline := by
    intro f hf
    simp [List.mem_filter] at hf
    exact hf
  rcases modifiedLoop_ok hmem with ⟨l, hl⟩
  exact ⟨_, compare_baselines_eq hl⟩

/-- C1: `compare_baselines` classifies exactly as specified: `new` holds
precisely the keys in `current` and not in `baseline`, `deleted` precisely
the keys in `baseline` and not in `current`, and a key present in both is
in `modified` iff its `hash` or its `size` differs between the two
records. -/
theorem compare_baselines_classification
    (current baseline : FingerprintMapping) (ch : Changes)
    (h : compare_baselines current baseline = Except.ok ch) :
    (∀ k, k ∈ ch.new ↔ k ∈ keys current ∧ k ∉ keys baseline) ∧
    (∀ k, k ∈ ch.deleted ↔ k ∈ keys baseline ∧ k ∉ keys current) ∧
    (∀ k cr br, lookup current k = some cr → lookup baseline k = some br →
      (k ∈ ch.modified ↔ (cr.hash ≠ br.hash ∨ cr.size ≠ br.size))) := by
  rcases compare_baselines_spec h with ⟨h1, h2, h3⟩
  refine ⟨h1, h2, fun k cr br hcr hbr => ?_⟩
  rw [h3 k]
  constructor
  · rintro ⟨cr', br', hcr', hbr', hd⟩
    rw [hcr] at hcr'; rw [hbr] at hbr'
    cases hcr'; cases hbr'
    exact hd
  · intro hd
    exact ⟨cr, br, hcr, hbr, hd⟩

/-- Spec scenario: current scan after `a.txt` changed content, `b.txt` was
deleted and `c.txt` was added. -/
def cur₀ : FingerprintMapping :=
  [("a.txt", ⟨"d-hellp", 5, 200⟩), ("c.txt", ⟨"d-new", 3, 200⟩)]

/-- Spec scenario: baseline over `a.txt` (content "hello") and `b.txt`
(content "world"). -/
def base₀ : FingerprintMapping :=
  [("a.txt", ⟨"d-hello", 5, 100⟩), ("b.txt", ⟨"d-world", 5, 100⟩)]

/-- The classification of the spec scenario:
`new = [c.txt]`, `deleted = [b.txt]`, `modified = [a.txt]`. -/
def ch₀ : Changes :=
  { new := ["c.txt"], deleted := ["b.txt"], modified := ["a.txt"] }

/-- Witness for C1 at the spec's own example scenario. -/
theorem compare_baselines_classification_witness :
    ("c.txt" ∈ ch₀.new ↔ "c.txt" ∈ keys cur₀ ∧ "c.txt" ∉ keys base₀) ∧
    ("b.txt" ∈ ch₀.deleted ↔ "b.txt" ∈ keys base₀ ∧ "b.txt" ∉ keys cur₀) ∧
    ("a.txt" ∈ ch₀.modified ↔
      ((⟨"d-hellp", 5, 200⟩ : FingerprintRecord).hash ≠
        (⟨"d-hello", 5, 100⟩ : FingerprintRecord).hash ∨
       (⟨"d-hellp", 5, 200⟩ : FingerprintRecord).size ≠
        (⟨"d-hello", 5, 100⟩ : FingerprintRecord).size)) :=
  ⟨(compare_baselines_classification cur₀ base₀ ch₀ rfl).1 "c.txt",
   (compare_baselines_classification cur₀ base₀ ch₀ rfl).2.1 "b.txt",
   (compare_baselines_classification cur₀ base₀ ch₀ rfl).2.2 "a.txt"
     ⟨"d-hellp", 5, 200⟩ ⟨"d-hello", 5, 100⟩ rfl rfl⟩

/-- A key that `compare_baselines` classifies as unchanged (and therefore
omits from all three result sets): present in both mappings with equal
`hash` and equal `size`. -/
def unchangedKey (current baseline : FingerprintMapping) (k : String) : Prop :=
  ∃ cr br, lookup current k = some cr ∧ lookup baseline k = some br ∧
    cr.hash = br.hash ∧ cr.size = br.size

/-- C2: the classification is a partition.  The three explicit sets are
pairwise disjoint, contain no key outside the union of the two key sets,
and every key of the union falls in exactly one of
new / deleted / modified / unchanged. -/
theorem compare_baselines_partition
    (current baseline : FingerprintMapping) (ch : Changes)
    (h : compare_baselines current baseline = Except.ok ch) :
    (∀ k, ¬ (k ∈ ch.new ∧ k ∈ ch.deleted)) ∧
    (∀ k, ¬ (k ∈ ch.new ∧ k ∈ ch.modified)) ∧
    (∀ k, ¬ (k ∈ ch.deleted ∧ k ∈ ch.modified)) ∧
    (∀ k, k ∈ ch.new ∨ k ∈ ch.deleted ∨ k ∈ ch.modified →
      k ∈ keys current ∨ k ∈ keys baseline) ∧
    (∀ k, k ∈ keys current ∨ k ∈ keys baseline →
      (k ∈ ch.new ∧ k ∉ ch.deleted ∧ k ∉ ch.modified ∧
        ¬ unchangedKey current baseline k) ∨
      (k ∉ ch.new ∧ k ∈ ch.deleted ∧ k ∉ ch.modified ∧
        ¬ unchangedKey current baseline k) ∨
      (k ∉ ch.new ∧ k ∉ ch.deleted ∧ k ∈ ch.modified ∧
        ¬ unchangedKey current baseline k) ∨
      (k ∉ ch.new ∧ k ∉ ch.deleted ∧ k ∉ ch.modified ∧
        unchangedKey current baseline k)) := by
  rcases compare_baselines_spec h with ⟨hn, hd, hm⟩
  have hmcur : ∀ k, k ∈ ch.modified → k ∈ keys current ∧ k ∈ keys baseline := by
    intro k hk
    rcases (hm k).mp hk with ⟨cr, br, hcr, hbr, _⟩
    exact ⟨mem_keys_of_lookup_some hcr, mem_keys_of_lookup_some hbr⟩
  refine ⟨?_, ?_, ?_, ?_, ?_⟩
  · intro k ⟨h1, h2⟩
    exact ((hn k).mp h1).2 (((hd k).mp h2).1)
  · intro k ⟨h1, h2⟩
    exact ((hn k).mp h1).2 ((hmcur k h2).2)
  · intro k ⟨h1, h2⟩
    exact ((hd k).mp h1).2 ((hmcur k h2).1)
  · intro k hk
    rcases hk with hk | hk | hk
    · exact Or.inl ((hn k).mp hk).1
    · exact Or.inr ((hd k).mp hk).1
    · exact Or.inl (hmcur k hk).1
  · intro k hk
    by_cases hc : k ∈ keys current
    · by_cases hb : k ∈ keys baseline
      · rcases lookup_isSome_of_mem_keys hc with ⟨cr, hcr⟩
        rcases lookup_isSome_of_mem_keys hb with ⟨br, hbr⟩
        have hnew : k ∉ ch.new := fun hx => ((hn k).mp hx).2 hb
        have hdel : k ∉ ch.deleted := fun hx => ((hd k).mp hx).2 hc
        by_cases hdiff : cr.hash ≠ br.hash ∨ cr.size ≠ br.size
        · refine Or.inr (Or.inr (Or.inl ⟨hnew, hdel,
            (hm k).mpr ⟨cr, br, hcr, hbr, hdiff⟩, ?_⟩))
          rintro ⟨cr', br', hcr', hbr', he1, he2⟩
          rw [hcr] at hcr'; rw [hbr] at hbr'
          cases hcr'; cases hbr'
          rcases hdiff with hx | hx
          · exact hx he1
          · exact hx he2
        · push_neg at hdiff
          refine Or.inr (Or.inr (Or.inr ⟨hnew, hdel, ?_,
            cr, br, hcr, hbr, hdiff.1, hdiff.2⟩))
          intro hx
          rcases (hm k).mp hx with ⟨cr', br', hcr', hbr', hd'⟩
          rw [hcr] at hcr'; rw [hbr] at hbr'
          cases hcr'; cases hbr'
          rcases hd' with hx' | hx'
          · exact hx' hdiff.1
          · exact hx' hdiff.2
      · refine Or.inl ⟨(hn k).mpr ⟨hc, hb⟩,
          fun hx => hb ((hd k).mp hx).1,
          fun hx => hb (hmcur k hx).2, ?_⟩
        rintro ⟨cr, br, hcr, hbr, _, _⟩
        exact hb (mem_keys_of_lookup_some hbr)
    · have hb : k ∈ keys baseline := by
        rcases hk with hk | hk
        · exact absurd hk hc
        · exact hk
      refine Or.inr (Or.inl ⟨fun hx => hc ((hn k).mp hx).1,
        (hd k).mpr ⟨hb, hc⟩, fun hx => hc (hmcur k hx).1, ?_⟩)
      rintro ⟨cr, br, hcr, hbr, _, _⟩
      exact hc (mem_keys_of_lookup_some hcr)

/-- Witness for C2 at the spec scenario, at the modified key `a.txt`. -/
theorem compare_baselines_partition_witness :
    ¬ ("a.txt" ∈ ch₀.new ∧ "a.txt" ∈ ch₀.deleted) ∧
    (("a.txt" ∈ ch₀.new ∧ "a.txt" ∉ ch₀.deleted ∧ "a.txt" ∉ ch₀.modified ∧
        ¬ unchangedKey cur₀ base₀ "a.txt") ∨
     ("a.txt" ∉ ch₀.new ∧ "a.txt" ∈ ch₀.deleted ∧ "a.txt" ∉ ch₀.modified ∧
        ¬ unchangedKey cur₀ base₀ "a.txt") ∨
     ("a.txt" ∉ ch₀.new ∧ "a.txt" ∉ ch₀.deleted ∧ "a.txt" ∈ ch₀.modified ∧
        ¬ unchangedKey cur₀ base₀ "a.txt") ∨
     ("a.txt" ∉ ch₀.new ∧ "a.txt" ∉ ch₀.deleted ∧ "a.txt" ∉ ch₀.modified ∧
        unchangedKey cur₀ base₀ "a.txt")) :=
  ⟨(compare_baselines_partition cur₀ base₀ ch₀ rfl).1 "a.txt",
   (compare_baselines_partition cur₀ base₀ ch₀ rfl).2.2.2.2 "a.txt"
     (Or.inl (by simp [cur₀, keys]))⟩

/-- Agreement of two optional records on content identity: both absent, or
both present with equal `hash` and equal `size`; the `modified` timestamps
are unconstrained. -/
def recAgree : Option FingerprintRecord → Option FingerprintRecord → Prop
  | none, none => True
  | some c, some c' => c.hash = c'.hash ∧ c.size = c'.size
  | _, _ => False

theorem modifiedLoop_congr {current current' baseline baseline' : FingerprintMapping}
    (hc : ∀ k, recAgree (lookup current k) (lookup current' k))
    (hb : ∀ k, recAgree (lookup baseline k) (lookup baseline' k)) :
    ∀ fs, modifiedLoop current baseline fs = modifiedLoop current' baseline' fs := by
  intro fs
  induction fs with
  | nil => rfl
  | cons f fs ih =>
    have hcf := hc f
    have hbf := hb f
    cases h1 : lookup current f <;> cases h1' : lookup current' f <;>
      rw [h1, h1'] at hcf
    · simp [modifiedLoop, dictGet, h1, h1', bind, Except.bind]
    · exact absurd hcf (by simp [recAgree])
    · exact absurd hcf (by simp [recAgree])
    case some.some c c' =>
      cases h2 : lookup baseline f <;> cases h2' : lookup baseline' f <;>
        rw [h2, h2'] at hbf
      · simp [modifiedLoop, dictGet, h1, h1', h2, h2', bind, Except.bind]
      · exact absurd hbf (by simp [recAgree])
      · exact absurd hbf (by simp [recAgree])
      case some.some b b' =>
        simp only [recAgree] at hcf hbf
        simp only [modifiedLoop, dictGet, h1, h1', h2, h2', bind, Except.bind]
        rw [hcf.1, hcf.2, hbf.1, hbf.2, ih]

/-- C4: timestamp noninterference.  First part: two runs of
`compare_baselines` on inputs that agree on key sets and on every record's
`hash` and `size`, but may differ arbitrarily in the `modified` timestamps,
return the identical classification.  Second part: a key present in both
mappings whose records have equal `hash` and equal `size` is never placed
in the `modified` set, whatever the timestamps. -/
theorem compare_baselines_timestamp_noninterference :
    (∀ current baseline current' baseline' : FingerprintMapping,
      keys current = keys current' →
      keys baseline = keys baseline' →
      (∀ k, recAgree (lookup current k) (lookup current' k)) →
      (∀ k, recAgree (lookup baseline k) (lookup baseline' k)) →
      compare_baselines current baseline =
        compare_baselines current' baseline') ∧
    (∀ (current baseline : FingerprintMapping) (ch : Changes) (k : String)
      (cr br : FingerprintRecord),
      compare_baselines current baseline = Except.ok ch →
      lookup current k = some cr → lookup baseline k = some br →
      cr.hash = br.hash → cr.size = br.size → k ∉ ch.modified) := by
  constructor
  · intro current baseline current' baseline' hk hk' ha hb
    simp only [compare_baselines]
    rw [hk, hk', modifiedLoop_congr ha hb]
  · intro current baseline ch k cr br h hcr hbr he1 he2 hmem
    rcases ((compare_baselines_spec h).2.2 k).mp hmem with ⟨cr', br', hcr', hbr', hd'⟩
    rw [hcr] at hcr'; rw [hbr] at hbr'
    cases hcr'; cases hbr'
    rcases hd' with hx | hx
    · exact hx he1
    · exact hx he2

/-- The spec-scenario current mapping with all timestamps shifted: same
keys, same hashes, same sizes, different `modified` values. -/
def cur₁ : FingerprintMapping :=
  [("a.txt", ⟨"d-hellp", 5, 777⟩), ("c.txt", ⟨"d-new", 3, 888⟩)]

/-- The spec-scenario baseline mapping with all timestamps shifted. -/
def base₁ : FingerprintMapping :=
  [("a.txt", ⟨"d-hello", 5, 999⟩), ("b.txt", ⟨"d-world", 5, 111⟩)]

/-- A one-file current scan whose record matches the baseline in `hash`
and `size` but not in `modified`. -/
def curU : FingerprintMapping := [("u.txt", ⟨"d-u", 1, 5⟩)]

/-- A one-file baseline differing from `curU` only in the timestamp. -/
def baseU : FingerprintMapping := [("u.txt", ⟨"d-u", 1, 9⟩)]

/-- Witness for C4: shifting every timestamp of the spec scenario leaves
the classification identical, and the key of `curU`/`baseU` (equal digest
and size, different timestamp) is not reported as modified. -/
theorem compare_baselines_timestamp_noninterference_witness :
    compare_baselines cur₀ base₀ = compare_baselines cur₁ base₁ ∧
    "u.txt" ∉ (Changes.mk [] [] []).modified :=
  ⟨compare_baselines_timestamp_noninterference.1 cur₀ base₀ cur₁ base₁ rfl rfl
      (by
        intro k
        simp only [cur₀, cur₁, lookup]
        by_cases h1 : "a.txt" = k <;> by_cases h2 : "c.txt" = k <;>
          simp [h1, h2, recAgree])
      (by
        intro k
        simp only [base₀, base₁, lookup]
        by_cases h1 : "a.txt" = k <;> by_cases h2 : "b.txt" = k <;>
          simp [h1, h2, recAgree]),
   compare_baselines_timestamp_noninterference.2 curU baseU
      (Changes.mk [] [] []) "u.txt" ⟨"d-u", 1, 5⟩ ⟨"d-u", 1, 9⟩ rfl rfl rfl rfl rfl⟩

/-- Python dictionary subscript `d[k]` as a state operation on the
dictionary: `dict.__getitem__` returns the value (or raises `KeyError`)
and is a pure read — it returns the dictionary state it was given.  The
state-threading embedding below makes the frame effect of
`compare_baselines` on its arguments explicit. -/
def dictReadSt (m : FingerprintMapping) (k : String) :
    Option FingerprintRecord × FingerprintMapping :=
  (lookup m k, m)

/-- The `modified` loop of `compare_baselines` with the states of the two
argument dictionaries threaded through every subscript read, in the order
the Python statements perform them. -/
def modifiedLoopSt :
    List String → FingerprintMapping → FingerprintMapping →
    Except String (List String) × FingerprintMapping × FingerprintMapping
  | [], cur, base => (Except.ok [], cur, base)
  | f :: fs, cur, base =>
    let rc := dictReadSt cur f
    match rc.1 with
    | none => (Except.error "KeyError", rc.2, base)
    | some c =>
      let rb := dictReadSt base f
      match rb.1 with
      | none => (Except.error "KeyError", rc.2, rb.2)
      | some b =>
        let rr := modifiedLoopSt fs rc.2 rb.2
        match rr.1 with
        | Except.error e => (Except.error e, rr.2.1, rr.2.2)
        | Except.ok rest =>
          if c.hash ≠ b.hash ∨ c.size ≠ b.size then
            (Except.ok (f :: rest), rr.2.1, rr.2.2)
          else
            (Except.ok rest, rr.2.1, rr.2.2)

/-- Embedding of `compare_baselines` with the states of its two arguments threaded
through every operation that touches them: the key-set reads and the
per-key subscript reads.  The local `changes` dict is the only value the
function builds up. -/
def compare_baselines_st (current baseline : FingerprintMapping) :
    Except String Changes × FingerprintMapping × FingerprintMapping :=
  let current_files := keys current
  let baseline_files := keys baseline
  let newFiles := current_files.filter (fun k => k ∉ baseline_files)
  let deletedFiles := baseline_files.filter (fun k => k ∉ current_files)
  let r := modifiedLoopSt (current_files.filter (fun k => k ∈ baseline_files))
    current baseline
  match r.1 with
  | Except.ok m =>
    (Except.ok { new := newFiles, deleted := deletedFiles, modified := m },
      r.2.1, r.2.2)
  | Except.error e => (Except.error e, r.2.1, r.2.2)

theorem modifiedLoopSt_frame :
    ∀ (fs : List String) (cur base : FingerprintMapping),
      (modifiedLoopSt fs cur base).2 = (cur, base) := by
  intro fs
  induction fs with
  | nil => intro cur base; rfl
  | cons f fs ih =>
    intro cur base
    simp only [modifiedLoopSt, dictReadSt]
    cases hc : lookup cur f with
    | none => rfl
    | some c =>
      cases hb : lookup base f with
      | none => rfl
      | some b =>
        have hfr := ih cur base
        rcases hml : modifiedLoopSt fs cur base with ⟨r, cur₂, base₂⟩
        rw [hml] at hfr
        simp at hfr
        cases r with
        | error e => simp [hfr.1, hfr.2]
        | ok rest =>
          by_cases hd : c.hash ≠ b.hash ∨ c.size ≠ b.size <;>
            simp [hd, hfr.1, hfr.2]

/-- The state-threading embedding computes the same classification as the
direct one. -/
theorem modifiedLoopSt_fst :
    ∀ (fs : List String) (cur base : FingerprintMapping),
      (modifiedLoopSt fs cur base).1 = modifiedLoop cur base fs := by
  intro fs
  induction fs with
  | nil => intro cur base; rfl
  | cons f fs ih =>
    intro cur base
    simp only [modifiedLoopSt, dictReadSt, modifiedLoop, dictGet, bind, Except.bind]
    cases hc : lookup cur f with
    | none => rfl
    | some c =>
      cases hb : lookup base f with
      | none => rfl
      | some b =>
        have h1 := ih cur base
        rcases hml : modifiedLoopSt fs cur base with ⟨r, cur₂, base₂⟩
        rw [hml] at h1
        simp at h1
        cases r with
        | error e => rw [← h1]
        | ok rest =>
          rw [← h1]
          by_cases hd : c.hash ≠ b.hash ∨ c.size ≠ b.size <;> simp [hd]

theorem compare_baselines_st_fst (current baseline : FingerprintMapping) :
    (compare_baselines_st current baseline).1 =
      compare_baselines current baseline := by
  simp only [compare_baselines_st, compare_baselines, bind, Except.bind]
  have h1 := modifiedLoopSt_fst
    ((keys current).filter (fun k => k ∈ keys baseline)) current baseline
  rcases hml : modifiedLoopSt
      ((keys current).filter (fun k => k ∈ keys baseline)) current baseline
    with ⟨r, cur', base'⟩
  rw [hml] at h1
  simp at h1
  rw [← h1]
  cases r with
  | error e => rfl
  | ok m => rfl

/-- C10: `compare_baselines` does not mutate its arguments.  In the
state-threading embedding, whose only primitives on the two argument
dictionaries are reads, the `current` and `baseline` states returned after
the call are exactly the states passed in — so key sets and every record's
`hash`, `size` and `modified` values are unchanged. -/
theorem compare_baselines_no_mutation (current baseline : FingerprintMapping) :
    (compare_baselines_st current baseline).2.1 = current ∧
    (compare_baselines_st current baseline).2.2 = baseline := by
  have hfr := modifiedLoopSt_frame
    ((keys current).filter (fun k => k ∈ keys baseline)) current baseline
  simp only [compare_baselines_st]
  rcases hml : modifiedLoopSt
      ((keys current).filter (fun k => k ∈ keys baseline)) current baseline
    with ⟨r, cur', base'⟩
  rw [hml] at hfr
  simp at hfr
  cases r with
  | error e => simp [hfr.1, hfr.2]
  | ok m => simp [hfr.1, hfr.2]

/-- Kind of a filesystem entry yielded by `dir_path.rglob('*')`, as the
scanner's `file_path.is_file()` test distinguishes them. -/
inductive EntryKind where
  | regular
  | directory
  | symlinkToRegular
  | symlinkToDir
  | brokenSymlink
  | device
  | other
deriving DecidableEq

/-- One entry yielded by `rglob`, with the data the scanner reads from it:
the path relative to the scan root (the key that would be stored), its
kind, whether its content can be read to the end (so that hashing
succeeds), the sha256 hex digest of its content (the abstract output of
the external `hashlib` computation), and the `stat()` size and mtime. -/
structure FSEntry where
  relPath : String
  kind : EntryKind
  readable : Bool
  digest : String
  size : Int
  mtime : ℚ
deriving DecidableEq

/-- The filesystem state one call of `scan_directory` observes: whether the
root path exists, whether the recursive traversal itself raises (the outer
`except` branch of `scan_directory`), and the entries `rglob` yields. -/
structure FileSystem where
  rootExists : Bool
  traversalFails : Bool
  entries : List FSEntry
deriving DecidableEq

/-- CPython `pathlib` semantics of `file_path.is_file()`: true for a
regular file and for a symlink that resolves to a regular file (`is_file`
follows symlinks); false for directories, symlinks to directories, broken
symlinks, device files and other special entries. -/
def isFileEntry (e : FSEntry) : Bool :=
  match e.kind with
  | EntryKind.regular => true
  | EntryKind.symlinkToRegular => true
  | _ => false

/-- The diagnostics the engine prints, abstracted from the colored
console lines. -/
inductive Diag where
  | readFailed (path : String)
  | rootMissing
  | scanFailed
deriving DecidableEq

/-- Embedding of `calculate_file_hash` (`src/fim_scanner.py` lines 24-33): streams the
file content through sha256 and returns the hex digest; if any read fails
it prints a diagnostic for that file and returns `None`. -/
def calculate_file_hash (e : FSEntry) : Option String × List Diag :=
  if e.readable then (some e.digest, [])
  else (none, [Diag.readFailed e.relPath])

/-- Python dict assignment `d[k] = v`: replaces the value in place when
the key exists (keeping its position), appends otherwise. -/
def dictInsert (m : FingerprintMapping) (k : String) (v : FingerprintRecord) :
    FingerprintMapping :=
  match m with
  | [] => [(k, v)]
  | (k', v') :: rest =>
    if k' = k then (k', v) :: rest else (k', v') :: dictInsert rest k v

/-- The `for file_path in dir_path.rglob('*')` loop of `scan_directory`
(lines 46-55): entries that are not files are skipped without output; for
file entries the content is hashed, and `if file_hash:` (Python
truthiness: neither `None` nor the empty string) the fingerprint record is
stored under the relative path. -/
def scanLoop :
    List FSEntry → FingerprintMapping → List Diag →
    FingerprintMapping × List Diag
  | [], acc, diags => (acc, diags)
  | e :: es, acc, diags =>
    if isFileEntry e then
      match calculate_file_hash e with
      | (some h, d) =>
        if h ≠ "" then
          scanLoop es (dictInsert acc e.relPath ⟨h, e.size, e.mtime⟩) (diags ++ d)
        else
          scanLoop es acc (diags ++ d)
      | (none, d) => scanLoop es acc (diags ++ d)
    else
      scanLoop es acc diags

/-- Embedding of `scan_directory` (`src/fim_scanner.py` lines 35-59): `None` with a
diagnostic when the root does not exist, `None` when the traversal itself
raises, otherwise the fold of per-entry fingerprinting over the entries,
with per-file read failures absorbed. -/
def scan_directory (fs : FileSystem) : Option FingerprintMapping × List Diag :=
  if fs.rootExists = false then (none, [Diag.rootMissing])
  else if fs.traversalFails then (none, [Diag.scanFailed])
  else
    let r := scanLoop fs.entries [] []
    (some r.1, r.2)

theorem mem_keys_dictInsert {m : FingerprintMapping} {k k' : String}
    {v : FingerprintRecord} :
    k' ∈ keys (dictInsert m k v) ↔ k' = k ∨ k' ∈ keys m := by
  induction m with
  | nil => simp [dictInsert, keys]
  | cons p rest ih =>
    obtain ⟨pk, pv⟩ := p
    by_cases hk : pk = k
    · subst hk
      have hred : dictInsert ((pk, pv) :: rest) pk v = (pk, v) :: rest := by
        simp [dictInsert]
      rw [hred]
      simp only [keys, List.map_cons, List.mem_cons]
      tauto
    · constructor
      · intro h
        simp only [dictInsert, if_neg hk] at h
        simp only [keys, List.map_cons, List.mem_cons] at h ⊢
        rcases h with h | h
        · exact Or.inr (Or.inl h)
        · rcases ih.mp h with h2 | h2
          · exact Or.inl h2
          · exact Or.inr (Or.inr h2)
      · intro h
        simp only [dictInsert, if_neg hk]
        simp only [keys, List.map_cons, List.mem_cons] at h ⊢
        rcases h with h | h | h
        · exact Or.inr (ih.mpr (Or.inl h))
        · exact Or.inl h
        · exact Or.inr (ih.mpr (Or.inr h))

theorem scanLoop_cons_skip {e : FSEntry} {es : List FSEntry}
    {acc : FingerprintMapping} {diags : List Diag}
    (hf : isFileEntry e = false) :
    scanLoop (e :: es) acc diags = scanLoop es acc diags := by
  simp [scanLoop, hf]

theorem scanLoop_cons_file_ok {e : FSEntry} {es : List FSEntry}
    {acc : FingerprintMapping} {diags : List Diag}
    (hf : isFileEntry e = true) (hr : e.readable = true) (hd : e.digest ≠ "") :
    scanLoop (e :: es) acc diags =
      scanLoop es (dictInsert acc e.relPath ⟨e.digest, e.size, e.mtime⟩) diags := by
  simp [scanLoop, calculate_file_hash, hf, hr, hd]

theorem scanLoop_cons_file_empty {e : FSEntry} {es : List FSEntry}
    {acc : FingerprintMapping} {diags : List Diag}
    (hf : isFileEntry e = true) (hr : e.readable = true) (hd : e.digest = "") :
    scanLoop (e :: es) acc diags = scanLoop es acc diags := by
  simp [scanLoop, calculate_file_hash, hf, hr, hd]

theorem scanLoop_cons_unreadable {e : FSEntry} {es : List FSEntry}
    {acc : FingerprintMapping} {diags : List Diag}
    (hf : isFileEntry e = true) (hr : e.readable = false) :
    scanLoop (e :: es) acc diags =
      scanLoop es acc (diags ++ [Diag.readFailed e.relPath]) := by
  simp [scanLoop, calculate_file_hash, hf, hr]

theorem scanLoop_keys_mono :
    ∀ (es : List FSEntry) (acc : FingerprintMapping) (diags : List Diag)
      (k : String), k ∈ keys acc → k ∈ keys (scanLoop es acc diags).1 := by
  intro es
  induction es with
  | nil => intro acc diags k hk; exact hk
  | cons e es ih =>
    intro acc diags k hk
    by_cases hf : isFileEntry e = true
    · by_cases hre : e.readable = true
      · by_cases hd : e.digest = ""
        · rw [scanLoop_cons_file_empty hf hre hd]
          exact ih _ _ k hk
        · rw [scanLoop_cons_file_ok hf hre hd]
          exact ih _ _ k (mem_keys_dictInsert.mpr (Or.inr hk))
      · rw [scanLoop_cons_unreadable hf (Bool.not_eq_true _ ▸ hre)]
        exact ih _ _ k hk
    · rw [scanLoop_cons_skip (Bool.not_eq_true _ ▸ hf)]
      exact ih _ _ k hk

theorem scanLoop_diags_mono :
    ∀ (es : List FSEntry) (acc : FingerprintMapping) (diags : List Diag)
      (d : Diag), d ∈ diags → d ∈ (scanLoop es acc diags).2 := by
  intro es
  induction es with
  | nil => intro acc diags d hd; exact hd
  | cons e es ih =>
    intro acc diags d hd
    by_cases hf : isFileEntry e = true
    · by_cases hre : e.readable = true
      · by_cases hdg : e.digest = ""
        · rw [scanLoop_cons_file_empty hf hre hdg]
          exact ih _ _ d hd
        · rw [scanLoop_cons_file_ok hf hre hdg]
          exact ih _ _ d hd
      · rw [scanLoop_cons_unreadable hf (Bool.not_eq_true _ ▸ hre)]
        exact ih _ _ d (List.mem_append_left _ hd)
    · rw [scanLoop_cons_skip (Bool.not_eq_true _ ▸ hf)]
      exact ih _ _ d hd

theorem isFileEntry_iff_kind {e : FSEntry} :
    isFileEntry e = true ↔
      e.kind = EntryKind.regular ∨ e.kind = EntryKind.symlinkToRegular := by
  cases hk : e.kind <;> simp [isFileEntry, hk]

theorem mem_keys_scanLoop :
    ∀ (es : List FSEntry) (acc : FingerprintMapping) (diags : List Diag)
      (k : String),
      k ∈ keys (scanLoop es acc diags).1 ↔
        k ∈ keys acc ∨ ∃ e, e ∈ es ∧ e.relPath = k ∧ isFileEntry e = true ∧
          e.readable = true ∧ e.digest ≠ "" := by
  intro es
  induction es with
  | nil => intro acc diags k; simp [scanLoop]
  | cons e es ih =>
    intro acc diags k
    by_cases hf : isFileEntry e = true
    · by_cases hre : e.readable = true
      · by_cases hd : e.digest = ""
        · rw [scanLoop_cons_file_empty hf hre hd, ih]
          constructor
          · rintro (h | ⟨e', he', rest⟩)
            · exact Or.inl h
            · exact Or.inr ⟨e', List.mem_cons_of_mem e he', rest⟩
          · rintro (h | ⟨e', he', hp, hf', hr', hd'⟩)
            · exact Or.inl h
            · rcases List.mem_cons.mp he' with rfl | he'
              · exact absurd hd hd'
              · exact Or.inr ⟨e', he', hp, hf', hr', hd'⟩
        · rw [scanLoop_cons_file_ok hf hre hd, ih]
          constructor
          · rintro (h | ⟨e', he', rest⟩)
            · rcases mem_keys_dictInsert.mp h with rfl | h
              · exact Or.inr ⟨e, List.mem_cons_self e es, rfl, hf, hre, hd⟩
              · exact Or.inl h
            · exact Or.inr ⟨e', List.mem_cons_of_mem e he', rest⟩
          · rintro (h | ⟨e', he', hp, hf', hr', hd'⟩)
            · exact Or.inl (mem_keys_dictInsert.mpr (Or.inr h))
            · rcases List.mem_cons.mp he' with rfl | he'
              · exact Or.inl (mem_keys_dictInsert.mpr (Or.inl hp.symm))
              · exact Or.inr ⟨e', he', hp, hf', hr', hd'⟩
      · rw [scanLoop_cons_unreadable hf (Bool.not_eq_true _ ▸ hre), ih]
        constructor
        · rintro (h | ⟨e', he', rest⟩)
          · exact Or.inl h
          · exact Or.inr ⟨e', List.mem_cons_of_mem e he', rest⟩
        · rintro (h | ⟨e', he', hp, hf', hr', hd'⟩)
          · exact Or.inl h
          · rcases List.mem_cons.mp he' with rfl | he'
            · exact absurd hr' hre
            · exact Or.inr ⟨e', he', hp, hf', hr', hd'⟩
    · rw [scanLoop_cons_skip (Bool.not_eq_true _ ▸ hf), ih]
      constructor
      · rintro (h | ⟨e', he', rest⟩)
        · exact Or.inl h
        · exact Or.inr ⟨e', List.mem_cons_of_mem e he', rest⟩
      · rintro (h | ⟨e', he', hp, hf', hr', hd'⟩)
        · exact Or.inl h
        · rcases List.mem_cons.mp he' with rfl | he'
          · exact absurd hf' hf
          · exact Or.inr ⟨e', he', hp, hf', hr', hd'⟩

theorem mem_diags_scanLoop :
    ∀ (es : List FSEntry) (acc : FingerprintMapping) (diags : List Diag)
      (d : Diag),
      d ∈ (scanLoop es acc diags).2 ↔
        d ∈ diags ∨ ∃ e, e ∈ es ∧ isFileEntry e = true ∧ e.readable = false ∧
          d = Diag.readFailed e.relPath := by
  intro es
  induction es with
  | nil => intro acc diags d; simp [scanLoop]
  | cons e es ih =>
    intro acc diags d
    by_cases hf : isFileEntry e = true
    · by_cases hre : e.readable = true
      · by_cases hdg : e.digest = ""
        · rw [scanLoop_cons_file_empty hf hre hdg, ih]
          constructor
          · rintro (h | ⟨e', he', rest⟩)
            · exact Or.inl h
            · exact Or.inr ⟨e', List.mem_cons_of_mem e he', rest⟩
          · rintro (h | ⟨e', he', hf', hr', hd'⟩)
            · exact Or.inl h
            · rcases List.mem_cons.mp he' with rfl | he'
              · exact absurd hre (by rw [hr']; exact Bool.false_ne_true)
              · exact Or.inr ⟨e', he', hf', hr', hd'⟩
        · rw [scanLoop_cons_file_ok hf hre hdg, ih]
          constructor
          · rintro (h | ⟨e', he', rest⟩)
            · exact Or.inl h
            · exact Or.inr ⟨e', List.mem_cons_of_mem e he', rest⟩
          · rintro (h | ⟨e', he', hf', hr', hd'⟩)
            · exact Or.inl h
            · rcases List.mem_cons.mp he' with rfl | he'
              · exact absurd hre (by rw [hr']; exact Bool.false_ne_true)
              · exact Or.inr ⟨e', he', hf', hr', hd'⟩
      · rw [scanLoop_cons_unreadable hf (Bool.not_eq_true _ ▸ hre), ih]
        constructor
        · rintro (h | ⟨e', he', rest⟩)
          · rcases List.mem_append.mp h with h | h
            · exact Or.inl h
            · refine Or.inr ⟨e, List.mem_cons_self e es, hf,
                Bool.not_eq_true _ ▸ hre, ?_⟩
              simpa using h
          · exact Or.inr ⟨e', List.mem_cons_of_mem e he', rest⟩
        · rintro (h | ⟨e', he', hf', hr', hd'⟩)
          · exact Or.inl (List.mem_append_left _ h)
          · rcases List.mem_cons.mp he' with rfl | he'
            · exact Or.inl (List.mem_append_right _ (by simp [hd']))
            · exact Or.inr ⟨e', he', hf', hr', hd'⟩
    · rw [scanLoop_cons_skip (Bool.not_eq_true _ ▸ hf), ih]
      constructor
      · rintro (h | ⟨e', he', rest⟩)
        · exact Or.inl h
        · exact Or.inr ⟨e', List.mem_cons_of_mem e he', rest⟩
      · rintro (h | ⟨e', he', hf', hr', hd'⟩)
        · exact Or.inl h
        · rcases List.mem_cons.mp he' with rfl | he'
          · exact absurd hf' hf
          · exact Or.inr ⟨e', he', hf', hr', hd'⟩

/-- A symlink entry that resolves to a regular file. -/
def eLink : FSEntry :=
  { relPath := "link", kind := EntryKind.symlinkToRegular, readable := true,
    digest := "d-target", size := 4, mtime := 0 }

/-- A filesystem whose single entry under the root is `eLink`. -/
def fsLink : FileSystem :=
  { rootExists := true, traversalFails := false, entries := [eLink] }

/-- Counterexample to C5 as stated: on the filesystem `fsLink`, whose only
entry is a symbolic link resolving to a regular file, `scan_directory`
does fingerprint the link — `Path.is_file()` follows symlinks — so it is
false that non-regular entries never appear as keys of the returned
mapping. -/
theorem scan_directory_symlink_counterexample :
    ¬ (∀ (m : FingerprintMapping), (scan_directory fsLink).1 = some m →
        ∀ e, e ∈ fsLink.entries → e.kind ≠ EntryKind.regular →
          e.relPath ∉ keys m) := by
  intro h
  exact h [("link", ⟨"d-target", 4, 0⟩)] rfl eLink (by simp [fsLink])
    (by simp [eLink]) (by simp [keys, eLink])

/-- C5 (amended): every key of the mapping returned by `scan_directory`
comes from an entry whose `stat` resolves to a regular file — a regular
file or a symlink resolving to one.  Directories, symlinks to directories,
broken symlinks, device files and other special entries never appear as
keys, and they are skipped silently: every diagnostic the scan emits is a
read-failure report about such a file entry, never about a skipped
special entry. -/
theorem scan_directory_only_files (fs : FileSystem) (m : FingerprintMapping)
    (h : (scan_directory fs).1 = some m) :
    (∀ k, k ∈ keys m → ∃ e, e ∈ fs.entries ∧ e.relPath = k ∧
      (e.kind = EntryKind.regular ∨ e.kind = EntryKind.symlinkToRegular)) ∧
    (∀ d, d ∈ (scan_directory fs).2 → ∃ e, e ∈ fs.entries ∧
      (e.kind = EntryKind.regular ∨ e.kind = EntryKind.symlinkToRegular) ∧
      e.readable = false ∧ d = Diag.readFailed e.relPath) := by
  by_cases h1 : fs.rootExists = false
  · simp [scan_directory, h1] at h
  · by_cases h2 : fs.traversalFails = true
    · simp [scan_directory, h1, h2] at h
    · have h2' : fs.traversalFails = false := Bool.not_eq_true _ ▸ h2
      have hsc : scan_directory fs =
          (some (scanLoop fs.entries [] []).1, (scanLoop fs.entries [] []).2) := by
        simp [scan_directory, h1, h2']
      rw [hsc] at h
      have hm : m = (scanLoop fs.entries [] []).1 := (Option.some.inj h).symm
      subst hm
      constructor
      · intro k hk
        rcases (mem_keys_scanLoop fs.entries [] [] k).mp hk with h | ⟨e, he, hp, hf, _, _⟩
        · simp [keys] at h
        · exact ⟨e, he, hp, isFileEntry_iff_kind.mp hf⟩
      · intro d hd
        rw [hsc] at hd
        rcases (mem_diags_scanLoop fs.entries [] [] d).mp hd with h | ⟨e, he, hf, hr, hdd⟩
        · simp at h
        · exact ⟨e, he, isFileEntry_iff_kind.mp hf, hr, hdd⟩

/-- A readable regular file. -/
def eReg : FSEntry :=
  { relPath := "a.txt", kind := EntryKind.regular, readable := true,
    digest := "d-a", size := 5, mtime := 10 }

/-- A directory entry. -/
def eDir : FSEntry :=
  { relPath := "sub", kind := EntryKind.directory, readable := true,
    digest := "", size := 0, mtime := 10 }

/-- A filesystem with one regular file and one directory under the root. -/
def fsMix : FileSystem :=
  { rootExists := true, traversalFails := false, entries := [eReg, eDir] }

/-- The mapping `scan_directory` produces on `fsMix`. -/
def mMix : FingerprintMapping := [("a.txt", ⟨"d-a", 5, 10⟩)]

/-- Witness for C5 (amended) on the concrete filesystem `fsMix`. -/
theorem scan_directory_only_files_witness :
    (∀ k, k ∈ keys mMix → ∃ e, e ∈ fsMix.entries ∧ e.relPath = k ∧
      (e.kind = EntryKind.regular ∨ e.kind = EntryKind.symlinkToRegular)) ∧
    (∀ d, d ∈ (scan_directory fsMix).2 → ∃ e, e ∈ fsMix.entries ∧
      (e.kind = EntryKind.regular ∨ e.kind = EntryKind.symlinkToRegular) ∧
      e.readable = false ∧ d = Diag.readFailed e.relPath) :=
  scan_directory_only_files fsMix mMix rfl

/-- An unreadable regular file: hashing it raises and
`calculate_file_hash` returns `None`. -/
def eBad : FSEntry :=
  { relPath := "b.txt", kind := EntryKind.regular, readable := false,
    digest := "d-b", size := 5, mtime := 10 }

/-- A third, readable regular file. -/
def eOk : FSEntry :=
  { relPath := "c.txt", kind := EntryKind.regular, readable := true,
    digest := "d-c", size := 3, mtime := 10 }

/-- A root with three regular files of which exactly one is unreadable. -/
def fsOneBad : FileSystem :=
  { rootExists := true, traversalFails := false,
    entries := [eReg, eBad, eOk] }

/-- C6: partial-failure isolation.  When the root exists and traversal
succeeds, the scan returns a mapping (it does not fail because of
per-file read errors); every readable regular file is fingerprinted in
it; and a file entry whose content cannot be read is omitted from the
mapping while a diagnostic for exactly that path is emitted. -/
theorem scan_directory_partial_failure (fs : FileSystem)
    (hroot : fs.rootExists = true) (htrav : fs.traversalFails = false)
    (hnodup : (fs.entries.map FSEntry.relPath).Nodup) :
    ∃ m diags, scan_directory fs = (some m, diags) ∧
      (∀ e, e ∈ fs.entries → isFileEntry e = true → e.readable = true →
        e.digest ≠ "" → e.relPath ∈ keys m) ∧
      (∀ e, e ∈ fs.entries → isFileEntry e = true → e.readable = false →
        e.relPath ∉ keys m ∧ Diag.readFailed e.relPath ∈ diags) := by
  refine ⟨(scanLoop fs.entries [] []).1, (scanLoop fs.entries [] []).2,
    by simp [scan_directory, hroot, htrav], ?_, ?_⟩
  · intro e he hf hr hd
    exact (mem_keys_scanLoop fs.entries [] [] e.relPath).mpr
      (Or.inr ⟨e, he, rfl, hf, hr, hd⟩)
  · intro e he hf hr
    constructor
    · intro hk
      rcases (mem_keys_scanLoop fs.entries [] [] e.relPath).mp hk with
        h | ⟨e', he', hp, _, hr', _⟩
      · simp [keys] at h
      · have : e' = e := List.inj_on_of_nodup_map hnodup he' he hp
        subst this
        rw [hr] at hr'
        exact Bool.false_ne_true hr'
    · exact (mem_diags_scanLoop fs.entries [] [] (Diag.readFailed e.relPath)).mpr
        (Or.inr ⟨e, he, hf, hr, rfl⟩)

/-- Witness for C6 on `fsOneBad`: three regular files, one unreadable. -/
theorem scan_directory_partial_failure_witness :
    ∃ m diags, scan_directory fsOneBad = (some m, diags) ∧
      (∀ e, e ∈ fsOneBad.entries → isFileEntry e = true → e.readable = true →
        e.digest ≠ "" → e.relPath ∈ keys m) ∧
      (∀ e, e ∈ fsOneBad.entries → isFileEntry e = true → e.readable = false →
        e.relPath ∉ keys m ∧ Diag.readFailed e.relPath ∈ diags) :=
  scan_directory_partial_failure fsOneBad rfl rfl (by
    simp [fsOneBad, eReg, eBad, eOk])

/-- C8: root-not-found.  When the root path does not exist,
`scan_directory` emits the root-missing diagnostic and returns `None` —
no mapping, partial or empty, is produced. -/
theorem scan_directory_root_not_found (fs : FileSystem)
    (h : fs.rootExists = false) :
    scan_directory fs = (none, [Diag.rootMissing]) := by
  simp [scan_directory, h]

/-- A filesystem whose root path does not exist. -/
def fsMissing : FileSystem :=
  { rootExists := false, traversalFails := false, entries := [] }

/-- Witness for C8 on `fsMissing`. -/
theorem scan_directory_root_not_found_witness :
    scan_directory fsMissing = (none, [Diag.rootMissing]) :=
  scan_directory_root_not_found fsMissing rfl

/-- A JSON value of the baseline document.  `save_baseline` writes
`json.dump(data, f)` and `load_baseline` reads `json.load(f)`
(`src/fim_scanner.py` lines 61-77).  The text layer of Python's `json`
module — an external collaborator of the repo code — is modelled at the
level of the document tree it serializes and parses back: a string
round-trips to the same string, an int to the same int, a float to the
same float, an object to an object with the same fields in order. -/
inductive Json where
  | jstr (s : String)
  | jint (n : Int)
  | jnum (q : ℚ)
  | jobj (fields : List (String × Json))

/-- The JSON object `json.dump` writes for one fingerprint record: the
dict literal of `scan_directory` with its three named fields. -/
def encodeRecord (r : FingerprintRecord) : Json :=
  Json.jobj [("hash", Json.jstr r.hash), ("size", Json.jint r.size),
    ("modified", Json.jnum r.modified)]

/-- Document part of `save_baseline` (lines 61-69): the JSON document that
`json.dump(data, f)` serializes — the mapping as an object of record
objects.  (The file-state effect of the write is modelled separately by
`save_baseline_effect`.) -/
def save_baseline (data : FingerprintMapping) : Json :=
  Json.jobj (data.map (fun p => (p.1, encodeRecord p.2)))

/-- Lookup of a field in a parsed JSON object. -/
def jsonField (fields : List (String × Json)) (k : String) : Option Json :=
  match fields with
  | [] => none
  | (k', v) :: rest => if k' = k then some v else jsonField rest k

/-- Reading one record back out of the parsed document: the `hash`,
`size` and `modified` fields with their expected shapes. -/
def decodeRecord (j : Json) : Option FingerprintRecord :=
  match j with
  | Json.jobj fields =>
    match jsonField fields "hash", jsonField fields "size",
        jsonField fields "modified" with
    | some (Json.jstr h), some (Json.jint n), some (Json.jnum q) =>
      some ⟨h, n, q⟩
    | _, _, _ => none
  | _ => none

/-- Reading the entries of the top-level object back into the mapping. -/
def decodeEntries : List (String × Json) → Option FingerprintMapping
  | [] => some []
  | (k, v) :: rest =>
    match decodeRecord v, decodeEntries rest with
    | some r, some m => some ((k, r) :: m)
    | _, _ => none

/-- Embedding of `load_baseline` (lines 71-77): parses the document back into the
FingerprintMapping shape; `None` on malformed input (the `except`
branch). -/
def load_baseline (doc : Json) : Option FingerprintMapping :=
  match doc with
  | Json.jobj fields => decodeEntries fields
  | _ => none

theorem decodeRecord_encodeRecord (r : FingerprintRecord) :
    decodeRecord (encodeRecord r) = some r := by
  simp [decodeRecord, encodeRecord, jsonField]

/-- C3: Baseline Store round-trip.  `load_baseline` applied to the
document `save_baseline` produces yields a mapping with exactly the key
set of the input and, per key, the same `hash` and the same `size`. -/
theorem load_save_baseline_round_trip (m : FingerprintMapping) :
    ∃ m', load_baseline (save_baseline m) = some m' ∧
      keys m' = keys m ∧
      ∀ k, (lookup m' k).map FingerprintRecord.hash =
             (lookup m k).map FingerprintRecord.hash ∧
           (lookup m' k).map FingerprintRecord.size =
             (lookup m k).map FingerprintRecord.size := by
  refine ⟨m, ?_, rfl, fun k => ⟨rfl, rfl⟩⟩
  simp only [load_baseline, save_baseline]
  induction m with
  | nil => rfl
  | cons p rest ih =>
    simp only [List.map_cons, decodeEntries, decodeRecord_encodeRecord, ih]

/-- Outcome of the attempt to write the serialized baseline text:
`openFails` — `open(output_file, 'w')` itself raises and the destination
is left as it was; `failsAfter k` — the stream write raises after `k`
characters reached the file (disk full, I/O fault mid-dump);
`succeeds`. -/
inductive WriteOutcome where
  | openFails
  | failsAfter (k : Nat)
  | succeeds
deriving DecidableEq

/-- File-state effect of `save_baseline` (lines 61-69).  `open(output_file,
'w')` truncates the destination before anything is written, `json.dump`
then streams the serialized text into it chunk by chunk, and any
exception is caught: the function prints a diagnostic and returns
`False`, otherwise `True`.  Arguments: the destination's previous content
(`none` when the file did not exist), the serialized text, and the write
outcome; result: the returned bool and the destination content
afterwards. -/
def save_baseline_effect (old : Option String) (content : String) :
    WriteOutcome → Bool × Option String
  | WriteOutcome.openFails => (false, old)
  | WriteOutcome.failsAfter k => (false, some (content.take k))
  | WriteOutcome.succeeds => (true, some content)

/-- Counterexample to C7 as stated: writing the two-character
serialization `"ab"` to a fresh destination and failing after one
character returns failure with the destination holding the partial text
`"a"` — neither the complete serialized mapping, nor an absent file, nor
an empty one.  `save_baseline` truncate-then-write is not atomic. -/
theorem save_baseline_not_atomic :
    ¬ ((save_baseline_effect none "ab" (WriteOutcome.failsAfter 1)).1 = false →
        (save_baseline_effect none "ab" (WriteOutcome.failsAfter 1)).2 = some "ab" ∨
        (save_baseline_effect none "ab" (WriteOutcome.failsAfter 1)).2 = none ∨
        (save_baseline_effect none "ab" (WriteOutcome.failsAfter 1)).2 = some "") := by
  intro h
  rcases h rfl with h | h | h <;> revert h <;> decide

/-- C7 (amended): `save_baseline` signals failure by returning `False`,
and on failure the destination holds either its previous content (the
open itself failed) or some prefix of the serialized text — possibly a
partial baseline; the complete serialization is at the destination
exactly when the call returns `True`. -/
theorem save_baseline_effect_spec (old : Option String) (content : String)
    (w : WriteOutcome) :
    ((save_baseline_effect old content w).1 = true ↔ w = WriteOutcome.succeeds) ∧
    ((save_baseline_effect old content w).1 = true →
      (save_baseline_effect old content w).2 = some content) ∧
    ((save_baseline_effect old content w).1 = false →
      (save_baseline_effect old content w).2 = old ∨
      ∃ k, (save_baseline_effect old content w).2 = some (content.take k)) := by
  cases w with
  | openFails =>
    exact ⟨by simp [save_baseline_effect], by simp [save_baseline_effect],
      fun _ => Or.inl rfl⟩
  | failsAfter k =>
    exact ⟨by simp [save_baseline_effect], by simp [save_baseline_effect],
      fun _ => Or.inr ⟨k, rfl⟩⟩
  | succeeds =>
    exact ⟨by simp [save_baseline_effect], fun _ => rfl,
      by simp [save_baseline_effect]⟩

/-- Witness for C7 (amended) at the counterexample's concrete input. -/
theorem save_baseline_effect_spec_witness :
    (((save_baseline_effect none "ab" (WriteOutcome.failsAfter 1)).1 = true ↔
        WriteOutcome.failsAfter 1 = WriteOutcome.succeeds) ∧
     ((save_baseline_effect none "ab" (WriteOutcome.failsAfter 1)).1 = true →
        (save_baseline_effect none "ab" (WriteOutcome.failsAfter 1)).2 = some "ab") ∧
     ((save_baseline_effect none "ab" (WriteOutcome.failsAfter 1)).1 = false →
        (save_baseline_effect none "ab" (WriteOutcome.failsAfter 1)).2 = none ∨
        ∃ k, (save_baseline_effect none "ab" (WriteOutcome.failsAfter 1)).2 =
          some ("ab".take k))) :=
  save_baseline_effect_spec none "ab" (WriteOutcome.failsAfter 1)

end FIM
